import Mathlib

/-!
Verification of the web-blog repository's core against its specification.

Go strings are byte sequences; the handlers iterate them as runes.  We model a
Go string value as a `List Char` (its sequence of runes; Go source strings are
valid UTF-8) and, where the code works at the byte level (`len`, slicing,
`strings.ToLower` over a byte buffer), as a `List Nat` of UTF-8 bytes.
-/

namespace WebBlog

/-- UTF-8 encoding of a Unicode code point, as in Go's `utf8.EncodeRune`
(the code points fed to it here are always valid scalars). -/
def utf8EncodeRune (r : Nat) : List Nat :=
  if r < 0x80 then [r]
  else if r < 0x800 then [0xC0 + r / 0x40, 0x80 + r % 0x40]
  else if r < 0x10000 then
    [0xE0 + r / 0x1000, 0x80 + (r / 0x40) % 0x40, 0x80 + r % 0x40]
  else
    [0xF0 + r / 0x40000, 0x80 + (r / 0x1000) % 0x40, 0x80 + (r / 0x40) % 0x40,
     0x80 + r % 0x40]

/-- UTF-8 bytes of one character. -/
def utf8EncodeChar (c : Char) : List Nat :=
  utf8EncodeRune c.toNat

/-- UTF-8 bytes of a rune sequence; `byteLen` is Go's `len()` on the string. -/
def utf8Encode (s : List Char) : List Nat :=
  (s.map utf8EncodeChar).flatten

/-- Byte length of a Go string, i.e. `len(s)` in Go. -/
def byteLen (s : List Char) : Nat :=
  (utf8Encode s).length

/-- Decode one rune from the front of a byte sequence, as Go's
`utf8.DecodeRune`: returns the code point and the number of bytes consumed;
an invalid or truncated encoding yields `(0xFFFD, 1)`.  The acceptance
ranges (rejecting overlong forms, surrogates and values above U+10FFFF)
follow Go's `utf8.acceptRanges` table. -/
def utf8DecodeOne (bs : List Nat) : Nat × Nat :=
  match bs with
  | [] => (0xFFFD, 0)
  | b0 :: rest =>
    if b0 < 0x80 then (b0, 1)
    else if b0 < 0xC2 then (0xFFFD, 1)
    else if b0 < 0xE0 then
      match rest with
      | b1 :: _ =>
        if 0x80 ≤ b1 ∧ b1 < 0xC0 then ((b0 - 0xC0) * 0x40 + (b1 - 0x80), 2)
        else (0xFFFD, 1)
      | [] => (0xFFFD, 1)
    else if b0 < 0xF0 then
      match rest with
      | b1 :: b2 :: _ =>
        if (if b0 = 0xE0 then 0xA0 ≤ b1 else 0x80 ≤ b1) ∧
           (if b0 = 0xED then b1 < 0xA0 else b1 < 0xC0) ∧
           0x80 ≤ b2 ∧ b2 < 0xC0 then
          ((b0 - 0xE0) * 0x1000 + (b1 - 0x80) * 0x40 + (b2 - 0x80), 3)
        else (0xFFFD, 1)
      | _ => (0xFFFD, 1)
    else if b0 < 0xF5 then
      match rest with
      | b1 :: b2 :: b3 :: _ =>
        if (if b0 = 0xF0 then 0x90 ≤ b1 else 0x80 ≤ b1) ∧
           (if b0 = 0xF4 then b1 < 0x90 else b1 < 0xC0) ∧
           0x80 ≤ b2 ∧ b2 < 0xC0 ∧ 0x80 ≤ b3 ∧ b3 < 0xC0 then
          ((b0 - 0xF0) * 0x40000 + (b1 - 0x80) * 0x1000 + (b2 - 0x80) * 0x40 +
             (b3 - 0x80), 4)
        else (0xFFFD, 1)
      | _ => (0xFFFD, 1)
    else (0xFFFD, 1)

/-- Fragment of Go's `unicode.ToLower` rune mapping: the full ASCII case
mapping, together with the non-ASCII mappings exercised by the statements
below (U+023A/U+023E lowercase to the three-byte U+2C65/U+2C66; U+212A
KELVIN SIGN and U+212B ANGSTROM SIGN lowercase into Latin-1).  The omitted
table entries map non-ASCII letters to non-ASCII lowercase letters, never to
ASCII punctuation, space, underscore, hyphen or uppercase letters, which is
the only fact about them the theorems below would use. -/
def goToLower (r : Nat) : Nat :=
  if 0x41 ≤ r ∧ r ≤ 0x5A then r + 0x20
  else if r = 0x23A then 0x2C65
  else if r = 0x23E then 0x2C66
  else if r = 0x212A then 0x6B
  else if r = 0x212B then 0xE5
  else r

/-- One pass of Go's `strings.ToLower` over a byte string: decode a rune,
lower it, re-encode, continue after the consumed bytes.  The fuel argument
only bounds the recursion; `toLowerBytes` supplies one unit per byte, which
is enough since every step consumes at least one byte. -/
def toLowerBytesFuel : Nat → List Nat → List Nat
  | _, [] => []
  | 0, _ :: _ => []
  | fuel + 1, b0 :: rest =>
    let d := utf8DecodeOne (b0 :: rest)
    utf8EncodeRune (goToLower d.1) ++ toLowerBytesFuel fuel (rest.drop (d.2 - 1))

/-- Go's `strings.ToLower` on a byte string (see `goToLower` for the case
table fragment modelled). -/
def toLowerBytes (bs : List Nat) : List Nat :=
  toLowerBytesFuel bs.length bs

/-- The byte values of `toRemove = "/\\#()[]{},?+.'\""` in `sanitizeForFile`. -/
def toRemoveCodes : List Nat :=
  [0x2F, 0x5C, 0x23, 0x28, 0x29, 0x5B, 0x5D, 0x7B, 0x7D, 0x2C, 0x3F, 0x2B,
   0x2E, 0x27, 0x22]

/-- The byte values of the cutset `"_- "` passed to `strings.Trim`. -/
def trimCutset : List Nat :=
  [0x5F, 0x2D, 0x20]

/-- Go's `strings.Trim(s, "_- ")` on a byte string.  Because every rune of
the cutset is ASCII, and an ASCII byte is never part of a multi-byte UTF-8
encoding, trimming runes of the cutset from both ends coincides with
dropping bytes of the cutset from both ends. -/
def trimGo (bs : List Nat) : List Nat :=
  ((bs.dropWhile (· ∈ trimCutset)).reverse.dropWhile (· ∈ trimCutset)).reverse

/-- Go's `utf8.EncodeRune(buf, c)` into the 3-byte buffer `buf` that
`sanitizeForFile` allocates (main.go line 309).  Runes up to U+FFFF take the
1- to 3-byte branches and fit; any larger rune takes the 4-byte branch,
whose first statement indexes `p[3]` and panics with index-out-of-range on
a 3-byte slice — modelled as `none`. -/
def encodeRuneBuf3 (c : Char) : Option (List Nat) :=
  if c.toNat < 0x10000 then some (utf8EncodeRune c.toNat) else none

/-- The rune loop of `sanitizeForFile` (main.go lines 310-326): skip
characters of `toRemove`, map space and underscore to `'-'`, skip a
character equal to the previously emitted one (`prev` starts as the zero
rune), and emit the UTF-8 bytes of the rest through the 3-byte buffer —
`none` is the panic the buffer causes on a rune above U+FFFF. -/
def sanitizeLoop : Char → List Char → Option (List Nat)
  | _, [] => some []
  | prev, c :: cs =>
    if c.toNat ∈ toRemoveCodes then sanitizeLoop prev cs
    else
      let c' := if c = ' ' ∨ c = '_' then '-' else c
      if c' = prev then sanitizeLoop prev cs
      else
        (encodeRuneBuf3 c').bind fun bs =>
          (sanitizeLoop c' cs).map fun rest => bs ++ rest

/-- `sanitizeForFile` (main.go lines 305-334): run the rune loop, truncate
the byte buffer to 32 bytes, `strings.Trim(s, "_- ")`, `strings.ToLower`.
`some` holds the byte string Go returns; `none` is the panic the rune loop
raises on any character above U+FFFF (the call never returns then). -/
def sanitizeForFile (s : List Char) : Option (List Nat) :=
  (sanitizeLoop (Char.ofNat 0) s).map fun res =>
    toLowerBytes (trimGo (res.take 32))

/-! ## Go string helpers used by the edit handler -/

/-- The code points of Unicode's White_Space property, which is what Go's
`unicode.IsSpace` tests (`strings.TrimSpace` trims these). -/
def goWhiteSpace : List Nat :=
  [0x9, 0xA, 0xB, 0xC, 0xD, 0x20, 0x85, 0xA0, 0x1680, 0x2000, 0x2001, 0x2002,
   0x2003, 0x2004, 0x2005, 0x2006, 0x2007, 0x2008, 0x2009, 0x200A, 0x2028,
   0x2029, 0x202F, 0x205F, 0x3000]

/-- Go's `unicode.IsSpace`. -/
def isGoSpace (c : Char) : Bool :=
  decide (c.toNat ∈ goWhiteSpace)

/-- Go's `strings.TrimSpace`: white space removed from both ends. -/
def trimSpace (s : List Char) : List Char :=
  ((s.dropWhile isGoSpace).reverse.dropWhile isGoSpace).reverse

/-- Go's `strings.Split(s, ",")`: the pieces of `s` between commas. -/
def splitOnComma : List Char → List (List Char)
  | [] => [[]]
  | c :: cs =>
    if c = ',' then [] :: splitOnComma cs
    else
      match splitOnComma cs with
      | t :: ts => (c :: t) :: ts
      | [] => [[c]]

/-! ## Formats (part_000 lines 20-32; the constants live in the store file
that is not under src/) -/

/-- Modelled from the spec: the four recognized format identifiers plus the
unknown sentinel; the constant declarations are in the store source, which
is not under src/ (part_000 uses the names `FormatHtml`, `FormatTextile`,
`FormatMarkdown`, `FormatText`, `FormatUnknown`). -/
def FormatHtml : Int := 0

/-- See `FormatHtml`. -/
def FormatTextile : Int := 1

/-- See `FormatHtml`. -/
def FormatMarkdown : Int := 2

/-- See `FormatHtml`. -/
def FormatText : Int := 3

/-- See `FormatHtml`. -/
def FormatUnknown : Int := -1

/-- `formatNameToId` (part_000 lines 20-32). -/
def formatNameToId (name : List Char) : Int :=
  if name = ['h', 't', 'm', 'l'] then FormatHtml
  else if name = ['t', 'e', 'x', 't', 'i', 'l', 'e'] then FormatTextile
  else if name = ['m', 'a', 'r', 'k', 'd', 'o', 'w', 'n'] then FormatMarkdown
  else if name = ['t', 'e', 'x', 't'] then FormatText
  else FormatUnknown

/-- Modelled from the spec: `validFormat` is declared in the store source,
which is not under src/; the spec says a format is valid exactly when it is
one of the four recognized values. -/
def validFormat (format : Int) : Bool :=
  format == FormatHtml || format == FormatTextile ||
    format == FormatMarkdown || format == FormatText

/-- The four format strings `formatNameToId` recognizes. -/
def recognizedFormatNames : List (List Char) :=
  [['h', 't', 'm', 'l'], ['t', 'e', 'x', 't', 'i', 'l', 'e'],
   ['m', 'a', 'r', 'k', 'd', 'o', 'w', 'n'], ['t', 'e', 'x', 't']]

/-- `checkboxToBool` (part_000 lines 45-47). -/
def checkboxToBool (checkboxVal : List Char) : Bool :=
  checkboxVal = ['o', 'n']

/-- `tagsFromString` (part_000 lines 49-55). -/
def tagsFromString (s : List Char) : List (List Char) :=
  (splitOnComma s).map trimSpace

/-! ## Articles, blobs and the store -/

/-- A stored text blob (`Text` in the store source, which is not under
src/).  Modelled from the spec: a blob records the format and the immutable
body; the content digest is determined by the content, so the body itself
stands in for the digest here. -/
structure TextBlob where
  format : Int
  body : List Char
deriving DecidableEq, Repr

/-- The mutable article record (`Article`), with the fields
`createNewOrUpdatePost` touches. -/
structure Article where
  id : Int
  publishedOn : Nat
  title : List Char
  isPrivate : Bool
  isDeleted : Bool
  tags : List (List Char)
  versions : List TextBlob
deriving DecidableEq, Repr

/-- The article repository's persisted state: the list of article records. -/
structure Store where
  articles : List Article
deriving DecidableEq, Repr

/-- `findUniqueArticleId`'s scan (main.go lines 345-352): walk the sorted
ids and return `prevId+1` at the first break in the consecutive run. -/
def scanForGap : Int → List Int → Int
  | prevId, [] => prevId + 1
  | prevId, x :: xs => if x ≠ prevId + 1 then prevId + 1 else scanForGap x xs

/-- `findUniqueArticleId` (main.go lines 336-353): collect ids, return 1 for
an empty store, otherwise sort ascending (`sort.Ints`) and scan for the
first gap. -/
def findUniqueArticleId (articles : List Article) : Int :=
  let ids := articles.map Article.id
  if ids.length = 0 then 1
  else
    match List.insertionSort (· ≤ ·) ids with
    | [] => 1
    | x :: xs => scanForGap x xs

/-- Modelled from the spec: `store.CreateOrUpdateArticle` lives in the store
source, which is not under src/.  Per the spec it persists the article as a
unit: a record with the id sentinel 0 is new and receives the id
`findUniqueArticleId` picks before being added; otherwise the stored record
with that id is overwritten in place. -/
def CreateOrUpdateArticle (s : Store) (a : Article) : Store × Article :=
  if a.id = 0 then
    let a' := { a with id := findUniqueArticleId s.articles }
    (⟨s.articles ++ [a']⟩, a')
  else
    (⟨s.articles.map fun b => if b.id = a.id then a else b⟩, a)

/-! ## The edit handler (part_000 lines 57-107) -/

/-- The trimmed form values `createNewOrUpdatePost` reads
(via `getTrimmedFormValue`, part_000 lines 16-18, trimming is applied to
each on read). -/
structure EditRequest where
  format : List Char
  title : List Char
  note : List Char
  private_checkbox : List Char
  tags : List Char
  update_published_on : List Char
deriving DecidableEq, Repr

/-- What the handler writes to the response: a `serveErrorMsg` with the
given message, or a redirect to the page of the returned article (the URL
string built from `article.Permalink()` is presentation glue and is elided;
the article it is computed from is retained). -/
inductive EditResult where
  | errorMsg (msg : String)
  | redirect (article : Article)
deriving DecidableEq, Repr

/-- The observable outcome of one `createNewOrUpdatePost` call: the
response, the article store afterwards, how many blob-store writes
(`store.CreateNewText` calls) happened, and whether the article index was
invalidated (`clearArticlesCache`). -/
structure EditOutcome where
  result : EditResult
  store : Store
  blobWrites : Nat
  indexInvalidated : Bool
deriving DecidableEq, Repr

/-- Did the handler reject the request during validation?  The three
validation messages are those of part_000 lines 61, 66 and 71. -/
def EditResult.isValidationReject : EditResult → Bool
  | .errorMsg m =>
      m == "invalid format" || m == "empty title not valid" ||
        m == "body too small"
  | .redirect _ => false

/-- Did the handler fail with one of the two generic storage-failure
messages (part_000 lines 80 and 101)? -/
def EditResult.isStorageFailure : EditResult → Bool
  | .errorMsg m => m == "error creating text" || m == "error creating article"
  | .redirect _ => false

/-- `createNewOrUpdatePost` (part_000 lines 57-107).  `article` is the
record looked up by `handleAppEdit` (`nil` for a new post), `s` the store,
`now` the current time, and `textErr`/`persistErr` say whether the two
fallible store calls (`store.CreateNewText`, `store.CreateOrUpdateArticle`)
fail on this call.  Control flow follows the Go source line by line; the
spec-modelled pieces are `validFormat`, the blob constructor and
`CreateOrUpdateArticle` (store source not under src/), and the index
invalidation flag (articles-cache source not under src/, spec: invalidated
after every successful write, untouched on every failure path). -/
def createNewOrUpdatePost (r : EditRequest) (article : Option Article)
    (s : Store) (now : Nat) (textErr persistErr : Bool) : EditOutcome :=
  let format := formatNameToId (trimSpace r.format)
  if !validFormat format then
    ⟨.errorMsg "invalid format", s, 0, false⟩
  else
    let title := trimSpace r.title
    if title = [] then
      ⟨.errorMsg "empty title not valid", s, 0, false⟩
    else
      let body := trimSpace r.note
      if byteLen body < 10 then
        ⟨.errorMsg "body too small", s, 0, false⟩
      else
        let isPrivate := checkboxToBool (trimSpace r.private_checkbox)
        let tags := tagsFromString (trimSpace r.tags)
        if textErr then
          ⟨.errorMsg "error creating text", s, 1, false⟩
        else
          let text : TextBlob := ⟨format, body⟩
          let a0 : Article := match article with
            | none => ⟨0, now, [], false, false, [], []⟩
            | some a => a
          let a1 := { a0 with versions := a0.versions ++ [text] }
          let a2 := if checkboxToBool (trimSpace r.update_published_on) then
              { a1 with publishedOn := now }
            else a1
          let a3 := { a2 with
            title := title, isPrivate := isPrivate, isDeleted := false,
            tags := tags }
          if persistErr then
            ⟨.errorMsg "error creating article", s, 1, false⟩
          else
            let res := CreateOrUpdateArticle s a3
            ⟨.redirect res.2, res.1, 1, true⟩

/-! ## The article index (articles-cache source not under src/) -/

/-- Modelled from the spec: the index is a rebuild-from-scratch projection
of all non-deleted articles.  The by-tag ordering (publish date descending)
is elided; the claims below concern which articles the index serves. -/
structure ArticlesIndex where
  articles : List Article
deriving DecidableEq, Repr

/-- Modelled from the spec: `rebuild()` scans the persisted records and
keeps the non-deleted ones. -/
def rebuildIndex (s : Store) : ArticlesIndex :=
  ⟨s.articles.filter fun a => !a.isDeleted⟩

/-- Modelled from the spec: lookup by id against the index snapshot. -/
def getArticleById (idx : ArticlesIndex) (id : Int) : Option Article :=
  idx.articles.find? fun a => a.id = id

/-- Modelled from the spec: the articles the index lists under a tag. -/
def listByTag (idx : ArticlesIndex) (tag : List Char) : List Article :=
  idx.articles.filter fun a => decide (tag ∈ a.tags)

/-! ## Backup configuration gating (main.go lines 38-92 and 433-443) -/

/-- The backup-relevant slice of the `config` record (main.go lines 38-53):
four `*string` fields, each `nil` when absent from config.json. -/
structure Config where
  awsAccess : Option String
  awsSecret : Option String
  s3BackupBucket : Option String
  s3BackupDir : Option String
deriving DecidableEq, Repr

/-- `StringEmpty` (main.go lines 66-68): nil pointer or empty string. -/
def StringEmpty : Option String → Bool
  | none => true
  | some s => s.length == 0

/-- `S3BackupEnabled` (main.go lines 70-92), returning the decision together
with the `logger.Notice` lines it emits. -/
def S3BackupEnabled (inProduction : Bool) (c : Config) : Bool × List String :=
  if !inProduction then
    (false, ["s3 backups disabled because not in production"])
  else if StringEmpty c.awsAccess then
    (false, ["s3 backups disabled because AwsAccess not defined in config.json"])
  else if StringEmpty c.awsSecret then
    (false, ["s3 backups disabled because AwsSecret not defined in config.json"])
  else if StringEmpty c.s3BackupBucket then
    (false, ["s3 backups disabled because S3BackupBucket not defined in config.json"])
  else if StringEmpty c.s3BackupDir then
    (false, ["s3 backups disabled because S3BackupDir not defined in config.json"])
  else (true, [])

/-- The `BackupConfig` record main builds (main.go lines 433-439). -/
structure BackupConfig where
  awsAccess : String
  awsSecret : String
  bucket : String
  s3Dir : String
  localDir : String
deriving DecidableEq, Repr

/-- Main.go lines 433-439 build `BackupConfig` by dereferencing the four
config pointers unconditionally; dereferencing a `nil` field is a runtime
panic, modelled as `none`. -/
def buildBackupConfig (c : Config) (localDir : String) : Option BackupConfig := do
  let a ← c.awsAccess
  let s ← c.awsSecret
  let b ← c.s3BackupBucket
  let d ← c.s3BackupDir
  pure ⟨a, s, b, d, localDir⟩

/-- How startup's backup section ends: a panic, or a running process
recording whether `go BackupLoop(...)` was launched and which gating
notices were logged. -/
inductive StartupOutcome where
  | panicked
  | started (backupLoopRunning : Bool) (logs : List String)
deriving DecidableEq, Repr

/-- The backup-relevant tail of `main` (main.go lines 433-443), reached
after the config file was read: build `BackupConfig` (deref of the four
pointers — panics if any is nil), then start `BackupLoop` in the background
iff `S3BackupEnabled()`.  Uploads happen only inside `BackupLoop`, so no
upload is ever attempted unless the loop is launched. -/
def mainBackupStartup (inProduction : Bool) (c : Config) (localDir : String) :
    StartupOutcome :=
  match buildBackupConfig c localDir with
  | none => .panicked
  | some _ =>
    let e := S3BackupEnabled inProduction c
    .started e.1 e.2

/-! ## Claim-facing derived definitions and concrete instances -/

/-- The versions list of the article being edited (`[]` for a new post). -/
def versionsBefore : Option Article → List TextBlob
  | none => []
  | some a => a.versions

/-- A byte the sanitized file name must not contain according to the claim:
one of the removed punctuation characters, a space, an underscore, or an
uppercase ASCII letter.  All of these are ASCII values, and an ASCII byte
occurs in a UTF-8 string exactly where the corresponding character does. -/
def isBadOutByte (b : Nat) : Bool :=
  decide (b ∈ toRemoveCodes) || b == 0x20 || b == 0x5F ||
    (0x41 ≤ b && b ≤ 0x5A)

/-- Sixteen alternating characters U+023A, U+023E: two bytes each in UTF-8
(32 bytes, so the truncation keeps all of them), each lowercasing to a
three-byte character. -/
def c10ExampleInput : List Char :=
  (List.replicate 8 [Char.ofNat 0x23A, Char.ofNat 0x23E]).flatten

/-- Two articles holding ids 2 and 3 (and nothing else of consequence). -/
def c2Articles : List Article :=
  [⟨2, 0, [], false, false, [], []⟩, ⟨3, 0, [], false, false, [], []⟩]

/-- Articles with ids 1, 2 and 4, as in the spec's id-reuse example. -/
def c2Articles124 : List Article :=
  [⟨1, 0, [], false, false, [], []⟩, ⟨2, 0, [], false, false, [], []⟩,
   ⟨4, 0, [], false, false, [], []⟩]

/-- A config whose AwsAccess field is absent from config.json (nil pointer),
with the other three backup fields present and non-empty. -/
def c7Config : Config :=
  ⟨none, some "secret", some "bucket", some "dir"⟩

/-- A config whose S3BackupDir field is absent from config.json (nil
pointer), with the other three backup fields present and non-empty. -/
def c8Config : Config :=
  ⟨some "access", some "secret", some "bucket", none⟩

/-! ## Lemmas about id assignment -/

theorem scanForGap_spec (xs : List Int) : ∀ x : Int,
    List.Sorted (· ≤ ·) (x :: xs) → (x :: xs).Nodup →
    x < scanForGap x xs ∧ scanForGap x xs ∉ x :: xs ∧
      ∀ n : Int, x ≤ n → n < scanForGap x xs → n ∈ x :: xs := by
  induction xs with
  | nil =>
    intro x _ _
    refine ⟨by simp [scanForGap], ?_, ?_⟩
    · simp only [scanForGap, List.mem_singleton]
      omega
    · intro n h1 h2
      simp only [scanForGap] at h2
      simp only [List.mem_singleton]
      omega
  | cons y ys ih =>
    intro x hs hn
    have hxy : x ≤ y := List.rel_of_sorted_cons hs y (by simp)
    have hs' : List.Sorted (· ≤ ·) (y :: ys) := (List.sorted_cons.mp hs).2
    have hn' : (y :: ys).Nodup := (List.nodup_cons.mp hn).2
    have hxnm : x ∉ y :: ys := (List.nodup_cons.mp hn).1
    have hxlty : x < y := by
      rcases lt_or_eq_of_le hxy with h | h
      · exact h
      · exact absurd (by simp [h]) hxnm
    by_cases hgap : y = x + 1
    · have hscan : scanForGap x (y :: ys) = scanForGap y ys := by
        simp [scanForGap, hgap]
      obtain ⟨ih1, ih2, ih3⟩ := ih y hs' hn'
      refine ⟨?_, ?_, ?_⟩
      · rw [hscan]; omega
      · rw [hscan]
        intro hmem
        rcases List.mem_cons.mp hmem with h | h
        · omega
        · exact ih2 h
      · intro n hxn hlt
        rw [hscan] at hlt
        by_cases hnx : n = x
        · simp [hnx]
        · have : y ≤ n := by omega
          exact List.mem_cons_of_mem x (ih3 n this hlt)
    · have hscan : scanForGap x (y :: ys) = x + 1 := by
        simp [scanForGap, hgap]
      have hy2 : x + 2 ≤ y := by omega
      have hge : ∀ z ∈ y :: ys, y ≤ z := by
        intro z hz
        rcases List.mem_cons.mp hz with h | h
        · omega
        · exact List.rel_of_sorted_cons hs' z h
      refine ⟨by omega, ?_, ?_⟩
      · rw [hscan]
        intro hmem
        rcases List.mem_cons.mp hmem with h | h
        · omega
        · have := hge _ h; omega
      · intro n hxn hlt
        rw [hscan] at hlt
        have : n = x := by omega
        simp [this]

theorem findUniqueArticleId_spec (articles : List Article)
    (hnd : (articles.map Article.id).Nodup) (hne : articles ≠ []) :
    ∃ m ∈ articles.map Article.id,
      (∀ k ∈ articles.map Article.id, m ≤ k) ∧
      m < findUniqueArticleId articles ∧
      findUniqueArticleId articles ∉ articles.map Article.id ∧
      ∀ n : Int, m ≤ n → n < findUniqueArticleId articles →
        n ∈ articles.map Article.id := by
  have hlen : ¬ (articles.map Article.id).length = 0 := by
    simp only [List.length_eq_zero, List.map_eq_nil_iff]
    exact hne
  have hperm := List.perm_insertionSort (· ≤ ·) (articles.map Article.id)
  have hsorted := List.sorted_insertionSort (· ≤ ·) (articles.map Article.id)
  cases hsort : List.insertionSort (· ≤ ·) (articles.map Article.id) with
  | nil =>
    rw [hsort] at hperm
    exact absurd (List.map_eq_nil_iff.mp hperm.symm.eq_nil) hne
  | cons x xs =>
    rw [hsort] at hperm hsorted
    have hval : findUniqueArticleId articles = scanForGap x xs := by
      simp only [findUniqueArticleId]
      rw [if_neg hlen, hsort]
    obtain ⟨h1, h2, h3⟩ :=
      scanForGap_spec xs x hsorted (hperm.nodup_iff.mpr hnd)
    refine ⟨x, hperm.mem_iff.mp (by simp), ?_, ?_, ?_, ?_⟩
    · intro k hk
      rcases List.mem_cons.mp (hperm.mem_iff.mpr hk) with h | h
      · omega
      · exact List.rel_of_sorted_cons hsorted k h
    · rw [hval]; exact h1
    · rw [hval]
      intro hmem
      exact h2 (hperm.mem_iff.mpr hmem)
    · intro n hmn hlt
      rw [hval] at hlt
      exact hperm.mem_iff.mp (h3 n hmn hlt)

theorem findUniqueArticleId_fresh (articles : List Article)
    (hnd : (articles.map Article.id).Nodup) :
    findUniqueArticleId articles ∉ articles.map Article.id := by
  by_cases hne : articles = []
  · subst hne; simp
  · obtain ⟨m, _, _, _, hfresh, _⟩ := findUniqueArticleId_spec articles hnd hne
    exact hfresh

/-! ## Claim C2 -/

/-- Claim C2, counterexample: with existing ids {2, 3} the code assigns id
4, although the smallest positive integer not in use is 1
(`findUniqueArticleId` only scans upward from the minimum existing id, so a
gap below the minimum is never reused). -/
theorem c2_counterexample :
    findUniqueArticleId c2Articles = 4 ∧
      (1 : Int) ∉ c2Articles.map Article.id ∧ (0 : Int) < 1 ∧ (1 : Int) < 4 := by
  decide

/-- Claim C2 as amended: over distinct existing ids, the assigned id is
never in use and is the smallest unused integer at or above the MINIMUM
existing id (not the smallest unused positive integer outright); an empty
store yields id 1. -/
theorem c2_amended (articles : List Article)
    (hnd : (articles.map Article.id).Nodup) :
    findUniqueArticleId articles ∉ articles.map Article.id ∧
    (articles = [] → findUniqueArticleId articles = 1) ∧
    (articles ≠ [] → ∃ m ∈ articles.map Article.id,
      (∀ k ∈ articles.map Article.id, m ≤ k) ∧
      m < findUniqueArticleId articles ∧
      ∀ n : Int, m ≤ n → n < findUniqueArticleId articles →
        n ∈ articles.map Article.id) := by
  refine ⟨findUniqueArticleId_fresh articles hnd, ?_, ?_⟩
  · intro h; subst h; rfl
  · intro hne
    obtain ⟨m, hm, hmin, hlt, _, hcover⟩ :=
      findUniqueArticleId_spec articles hnd hne
    exact ⟨m, hm, hmin, hlt, hcover⟩

/-- Witness for `c2_amended`: the spec's own example {1, 2, 4} (the next id
is 3, which is not in use). -/
theorem c2_amended_witness :
    (c2Articles124.map Article.id).Nodup ∧
      findUniqueArticleId c2Articles124 ∉ c2Articles124.map Article.id ∧
      findUniqueArticleId c2Articles124 = 3 :=
  ⟨by decide, (c2_amended c2Articles124 (by decide)).1, by decide⟩

/-! ## Claims C7, C8, C9 -/

/-- Claim C7 (code bug): with AwsAccess absent from config.json (a nil
pointer) in production, startup panics while building `BackupConfig`
(main.go line 434 dereferences the nil pointer) before `S3BackupEnabled` is
ever consulted, so the promised disablement notice is never logged — even
though `S3BackupEnabled` itself, were it reached, would disable the
pipeline and log exactly that notice (its nil-tolerant `StringEmpty` checks
are unreachable for nil fields). -/
theorem c7_code_bug_eval :
    mainBackupStartup true c7Config "data" = StartupOutcome.panicked ∧
      (S3BackupEnabled true c7Config).1 = false ∧
      (S3BackupEnabled true c7Config).2 =
        ["s3 backups disabled because AwsAccess not defined in config.json"] := by
  decide

/-- Claim C8 (code bug): a config missing one of the four backup fields
(here S3BackupDir is nil) makes `buildBackupConfig` — main.go lines 433-439,
executed unconditionally before the `S3BackupEnabled()` gate — dereference
a nil pointer: startup panics instead of completing with backups disabled. -/
theorem c8_code_bug_eval :
    buildBackupConfig c8Config "data" = none ∧
      mainBackupStartup false c8Config "data" = StartupOutcome.panicked := by
  decide

/-- Claim C9: outside production mode `S3BackupEnabled` returns false for
every config (the `inProduction` check is first), and the startup sequence
never launches the backup loop, so no upload is ever attempted. -/
theorem c9_no_backup_outside_production (c : Config) (localDir : String) :
    (S3BackupEnabled false c).1 = false ∧
      ∀ logs, mainBackupStartup false c localDir ≠
        StartupOutcome.started true logs := by
  constructor
  · rfl
  · intro logs h
    simp only [mainBackupStartup] at h
    cases hb : buildBackupConfig c localDir with
    | none => rw [hb] at h; exact StartupOutcome.noConfusion h
    | some bc =>
      rw [hb] at h
      simp only [S3BackupEnabled, Bool.not_false, if_true] at h
      exact Bool.noConfusion (StartupOutcome.started.inj h).1

/-- Witness for `c9_no_backup_outside_production`: a fully populated config
still has backups off when not in production, and its startup does not run
the loop. -/
theorem c9_no_backup_outside_production_witness :
    (S3BackupEnabled false ⟨some "a", some "s", some "b", some "d"⟩).1
        = false ∧
      mainBackupStartup false ⟨some "a", some "s", some "b", some "d"⟩ "dir"
        ≠ StartupOutcome.started true
          ["s3 backups disabled because not in production"] :=
  ⟨(c9_no_backup_outside_production
      ⟨some "a", some "s", some "b", some "d"⟩ "dir").1,
   (c9_no_backup_outside_production
      ⟨some "a", some "s", some "b", some "d"⟩ "dir").2
      ["s3 backups disabled because not in production"]⟩

/-! ## Lemmas about the edit handler -/

theorem validFormat_formatNameToId (name : List Char) :
    validFormat (formatNameToId name) = true ↔ name ∈ recognizedFormatNames := by
  simp only [formatNameToId, recognizedFormatNames, List.mem_cons,
    List.not_mem_nil, or_false]
  split
  · next h => simp [h, validFormat, FormatHtml, FormatTextile, FormatMarkdown,
      FormatText]
  · split
    · next _ h => simp [h, validFormat, FormatHtml, FormatTextile,
        FormatMarkdown, FormatText]
    · split
      · next _ _ h => simp [h, validFormat, FormatHtml, FormatTextile,
          FormatMarkdown, FormatText]
      · split
        · next _ _ _ h => simp [h, validFormat, FormatHtml, FormatTextile,
            FormatMarkdown, FormatText]
        · next h1 h2 h3 h4 =>
          simp [validFormat, FormatUnknown, FormatHtml, FormatTextile,
            FormatMarkdown, FormatText, h1, h2, h3, h4]

theorem CreateOrUpdateArticle_snd_versions (s : Store) (a : Article) :
    (CreateOrUpdateArticle s a).2.versions = a.versions := by
  simp only [CreateOrUpdateArticle]
  split <;> simp

theorem CreateOrUpdateArticle_snd_publishedOn (s : Store) (a : Article) :
    (CreateOrUpdateArticle s a).2.publishedOn = a.publishedOn := by
  simp only [CreateOrUpdateArticle]
  split <;> simp

/-! ## Claim C1 -/

/-- Claim C1: an unrecognized format string, an after-trim empty title, or a
body shorter than 10 bytes is rejected with one of the three validation
messages before `store.CreateNewText` is ever called (zero blob-store
writes); a body of exactly 10 bytes (with the other two fields valid)
passes validation, and the single blob write of the request happens. -/
theorem c1_validation_gate (r : EditRequest) (article : Option Article)
    (s : Store) (now : Nat) (textErr persistErr : Bool) :
    ((trimSpace r.format ∉ recognizedFormatNames ∨ trimSpace r.title = [] ∨
        byteLen (trimSpace r.note) < 10) →
      (createNewOrUpdatePost r article s now textErr
          persistErr).result.isValidationReject = true ∧
      (createNewOrUpdatePost r article s now textErr persistErr).blobWrites
        = 0) ∧
    ((trimSpace r.format ∈ recognizedFormatNames ∧ trimSpace r.title ≠ [] ∧
        byteLen (trimSpace r.note) = 10) →
      (createNewOrUpdatePost r article s now textErr
          persistErr).result.isValidationReject = false ∧
      (createNewOrUpdatePost r article s now textErr persistErr).blobWrites
        = 1) := by
  constructor
  · intro h
    by_cases hv : validFormat (formatNameToId (trimSpace r.format)) = true
    · have hmem := (validFormat_formatNameToId _).mp hv
      by_cases ht : trimSpace r.title = []
      · simp [createNewOrUpdatePost, hv, ht, EditResult.isValidationReject]
      · have hb : byteLen (trimSpace r.note) < 10 := by tauto
        simp [createNewOrUpdatePost, hv, ht, hb,
          EditResult.isValidationReject]
    · have hv' : validFormat (formatNameToId (trimSpace r.format)) = false :=
        by simpa using hv
      simp [createNewOrUpdatePost, hv', EditResult.isValidationReject]
  · rintro ⟨h1, h2, h3⟩
    have hv := (validFormat_formatNameToId _).mpr h1
    have hb : ¬ byteLen (trimSpace r.note) < 10 := by omega
    cases textErr <;> cases persistErr <;>
      simp [createNewOrUpdatePost, hv, h2, hb, EditResult.isValidationReject]

/-- Witness for `c1_validation_gate`: a request with format string "bogus"
is rejected with zero blob writes; the same request with format "markdown"
and a 10-byte body passes validation and writes one blob. -/
theorem c1_validation_gate_witness :
    ((createNewOrUpdatePost ⟨"bogus".data, "T".data, "0123456789".data, [],
        [], []⟩ none ⟨[]⟩ 0 false false).result.isValidationReject = true ∧
      (createNewOrUpdatePost ⟨"bogus".data, "T".data, "0123456789".data, [],
        [], []⟩ none ⟨[]⟩ 0 false false).blobWrites = 0) ∧
    ((createNewOrUpdatePost ⟨"markdown".data, "T".data, "0123456789".data,
        [], [], []⟩ none ⟨[]⟩ 0 false false).result.isValidationReject
        = false ∧
      (createNewOrUpdatePost ⟨"markdown".data, "T".data, "0123456789".data,
        [], [], []⟩ none ⟨[]⟩ 0 false false).blobWrites = 1) :=
  ⟨(c1_validation_gate ⟨"bogus".data, "T".data, "0123456789".data, [], [],
      []⟩ none ⟨[]⟩ 0 false false).1 (Or.inl (by decide)),
   (c1_validation_gate ⟨"markdown".data, "T".data, "0123456789".data, [],
      [], []⟩ none ⟨[]⟩ 0 false false).2 ⟨by decide, by decide, by decide⟩⟩

/-! ## Claim C3 -/

/-- Claim C3: a successful `createNewOrUpdatePost` returns an article whose
versions list is the previous versions list with exactly one new blob
appended at the end — length grows by one and the prior entries keep their
positions. -/
theorem c3_versions_append (r : EditRequest) (article : Option Article)
    (s : Store) (now : Nat) (textErr persistErr : Bool) (art' : Article)
    (h : (createNewOrUpdatePost r article s now textErr persistErr).result
        = EditResult.redirect art') :
    art'.versions = versionsBefore article ++
      [⟨formatNameToId (trimSpace r.format), trimSpace r.note⟩] ∧
    art'.versions.length = (versionsBefore article).length + 1 := by
  simp only [createNewOrUpdatePost] at h
  split at h
  · exact absurd h (by simp)
  · split at h
    · exact absurd h (by simp)
    · split at h
      · exact absurd h (by simp)
      · split at h
        · exact absurd h (by simp)
        · split at h
          · exact absurd h (by simp)
          · simp only [EditResult.redirect.injEq] at h
            subst h
            rw [CreateOrUpdateArticle_snd_versions]
            cases article <;> split <;>
              simp [versionsBefore]

/-- Witness for `c3_versions_append`: a concrete successful update of an
article with one prior version. -/
theorem c3_versions_append_witness :
    ((createNewOrUpdatePost ⟨"markdown".data, "T".data, "0123456789".data,
        [], [], []⟩
      (some ⟨5, 7, "old".data, false, false, [], [⟨2, "v1".data⟩]⟩)
      ⟨[]⟩ 9 false false).result =
        EditResult.redirect ⟨5, 7, "T".data, false, false, [[]],
          [⟨2, "v1".data⟩, ⟨2, "0123456789".data⟩]⟩) ∧
    (⟨5, 7, "T".data, false, false, [[]],
        [⟨2, "v1".data⟩, ⟨2, "0123456789".data⟩]⟩ : Article).versions =
      versionsBefore (some ⟨5, 7, "old".data, false, false, [],
        [⟨2, "v1".data⟩]⟩) ++
        [⟨formatNameToId (trimSpace "markdown".data),
          trimSpace "0123456789".data⟩] :=
  ⟨by decide,
   (c3_versions_append ⟨"markdown".data, "T".data, "0123456789".data, [], [],
      []⟩ (some ⟨5, 7, "old".data, false, false, [], [⟨2, "v1".data⟩]⟩)
      ⟨[]⟩ 9 false false
      ⟨5, 7, "T".data, false, false, [[]],
        [⟨2, "v1".data⟩, ⟨2, "0123456789".data⟩]⟩ (by decide)).1⟩

/-! ## Claim C4 -/

/-- Claim C4: a successful edit of an existing article leaves `publishedOn`
unchanged unless the `update_published_on` checkbox was ticked, in which
case it becomes the current time; either way the versions list grows by
one. -/
theorem c4_publish_date (r : EditRequest) (a : Article) (s : Store)
    (now : Nat) (textErr persistErr : Bool) (art' : Article)
    (h : (createNewOrUpdatePost r (some a) s now textErr persistErr).result
        = EditResult.redirect art') :
    (checkboxToBool (trimSpace r.update_published_on) = false →
      art'.publishedOn = a.publishedOn) ∧
    (checkboxToBool (trimSpace r.update_published_on) = true →
      art'.publishedOn = now) ∧
    art'.versions.length = a.versions.length + 1 := by
  simp only [createNewOrUpdatePost] at h
  split at h
  · exact absurd h (by simp)
  · split at h
    · exact absurd h (by simp)
    · split at h
      · exact absurd h (by simp)
      · split at h
        · exact absurd h (by simp)
        · split at h
          · exact absurd h (by simp)
          · simp only [EditResult.redirect.injEq] at h
            subst h
            rw [CreateOrUpdateArticle_snd_publishedOn,
              CreateOrUpdateArticle_snd_versions]
            refine ⟨?_, ?_, by split <;> simp⟩
            · intro hc; rw [if_neg (by simp [hc])]
            · intro hc; rw [if_pos (by simp [hc])]

/-- Witness for `c4_publish_date`: editing without the checkbox keeps the
old publish date 7. -/
theorem c4_publish_date_witness :
    ((createNewOrUpdatePost ⟨"textile".data, "U".data, "abcdefghijk".data,
        [], [], []⟩ (some ⟨3, 7, "old".data, false, false, [], [⟨1, "v".data⟩]⟩)
        ⟨[]⟩ 42 false false).result =
      EditResult.redirect ⟨3, 7, "U".data, false, false, [[]],
        [⟨1, "v".data⟩, ⟨1, "abcdefghijk".data⟩]⟩) ∧
    checkboxToBool (trimSpace ([] : List Char)) = false ∧
    (⟨3, 7, "U".data, false, false, [[]],
        [⟨1, "v".data⟩, ⟨1, "abcdefghijk".data⟩]⟩ : Article).publishedOn = 7 :=
  ⟨by decide, by decide,
    (c4_publish_date ⟨"textile".data, "U".data, "abcdefghijk".data, [], [],
        []⟩ ⟨3, 7, "old".data, false, false, [], [⟨1, "v".data⟩]⟩ ⟨[]⟩ 42
        false false
        ⟨3, 7, "U".data, false, false, [[]],
          [⟨1, "v".data⟩, ⟨1, "abcdefghijk".data⟩]⟩ (by decide)).1 (by decide)⟩

/-! ## Claim C6 -/

/-- Claim C6: when the blob write (`store.CreateNewText`) or the article
write (`store.CreateOrUpdateArticle`) fails on a request that passed
validation, the handler logs and returns one of the two generic
storage-failure messages, the article store is left exactly as it was, and
the index is not invalidated — readers observe no partial effect. -/
theorem c6_storage_failure_atomic (r : EditRequest) (article : Option Article)
    (s : Store) (now : Nat) (textErr persistErr : Bool)
    (hfail : textErr = true ∨ persistErr = true)
    (hfmt : trimSpace r.format ∈ recognizedFormatNames)
    (htitle : trimSpace r.title ≠ [])
    (hbody : ¬ byteLen (trimSpace r.note) < 10) :
    (createNewOrUpdatePost r article s now textErr persistErr).store = s ∧
    (createNewOrUpdatePost r article s now textErr
        persistErr).indexInvalidated = false ∧
    (createNewOrUpdatePost r article s now textErr
        persistErr).result.isStorageFailure = true := by
  have hv := (validFormat_formatNameToId _).mpr hfmt
  rcases hfail with hte | hpe
  · subst hte
    simp [createNewOrUpdatePost, hv, htitle, hbody, EditResult.isStorageFailure]
  · subst hpe
    cases textErr <;>
      simp [createNewOrUpdatePost, hv, htitle, hbody,
        EditResult.isStorageFailure]

/-- Witness for `c6_storage_failure_atomic`: a failing article persist on a
valid request leaves the one-article store untouched and the index valid. -/
theorem c6_storage_failure_atomic_witness :
    (createNewOrUpdatePost ⟨"html".data, "W".data, "0123456789".data, [], [],
        []⟩ none ⟨[⟨9, 1, "x".data, false, false, [], []⟩]⟩ 5 false
        true).store = ⟨[⟨9, 1, "x".data, false, false, [], []⟩]⟩ ∧
    (createNewOrUpdatePost ⟨"html".data, "W".data, "0123456789".data, [], [],
        []⟩ none ⟨[⟨9, 1, "x".data, false, false, [], []⟩]⟩ 5 false
        true).indexInvalidated = false :=
  ⟨(c6_storage_failure_atomic ⟨"html".data, "W".data, "0123456789".data, [],
      [], []⟩ none ⟨[⟨9, 1, "x".data, false, false, [], []⟩]⟩ 5 false true
      (Or.inr rfl) (by decide) (by decide) (by decide)).1,
   (c6_storage_failure_atomic ⟨"html".data, "W".data, "0123456789".data, [],
      [], []⟩ none ⟨[⟨9, 1, "x".data, false, false, [], []⟩]⟩ 5 false true
      (Or.inr rfl) (by decide) (by decide) (by decide)).2.1⟩

/-! ## Lemmas about the rebuilt index -/

theorem getById_append_fresh (l : List Article) (a : Article)
    (hfresh : ∀ b ∈ l, b.id ≠ a.id) (hdel : a.isDeleted = false) :
    getArticleById (rebuildIndex ⟨l ++ [a]⟩) a.id = some a := by
  simp only [getArticleById, rebuildIndex, List.filter_append]
  rw [show List.filter (fun x => !x.isDeleted) [a] = [a] by simp [hdel]]
  induction l with
  | nil => simp [List.find?]
  | cons b bs ih =>
    have hb : b.id ≠ a.id := hfresh b (by simp)
    have ih' := ih fun x hx => hfresh x (by simp [hx])
    simp only [List.filter_cons]
    split
    · rw [List.cons_append, List.find?_cons_of_neg _ (by simpa using hb)]
      exact ih'
    · exact ih'

theorem getById_update (l : List Article) (a : Article)
    (hex : ∃ b ∈ l, b.id = a.id) (hdel : a.isDeleted = false) :
    getArticleById
      (rebuildIndex ⟨l.map fun b => if b.id = a.id then a else b⟩) a.id
      = some a := by
  simp only [getArticleById, rebuildIndex]
  induction l with
  | nil => simp at hex
  | cons b bs ih =>
    simp only [List.map_cons]
    by_cases hb : b.id = a.id
    · rw [if_pos hb]
      simp only [List.filter_cons, hdel]
      simp only [Bool.not_false, if_pos]
      rw [List.find?_cons_of_pos _ (by simp)]
    · rw [if_neg hb]
      obtain ⟨b', hb', heq⟩ := hex
      have hbs : ∃ x ∈ bs, x.id = a.id := by
        rcases List.mem_cons.mp hb' with h | h
        · exact absurd (h ▸ heq) hb
        · exact ⟨b', h, heq⟩
      have ih' := ih hbs
      simp only [List.filter_cons]
      split
      · rw [List.find?_cons_of_neg _ (by simpa using hb)]
        exact ih'
      · exact ih'

theorem mem_listByTag_of_mem (l : List Article) (a : Article) (ha : a ∈ l)
    (hdel : a.isDeleted = false) (t : List Char) (ht : t ∈ a.tags) :
    a ∈ listByTag (rebuildIndex ⟨l⟩) t := by
  simp only [listByTag, rebuildIndex, List.mem_filter]
  exact ⟨⟨ha, by simp [hdel]⟩, by simpa using ht⟩

theorem index_serves_CreateOrUpdate (s : Store) (A : Article)
    (hdel : A.isDeleted = false)
    (hnd : (s.articles.map Article.id).Nodup)
    (hex : A.id = 0 ∨ ∃ b ∈ s.articles, b.id = A.id) :
    getArticleById (rebuildIndex (CreateOrUpdateArticle s A).1)
        (CreateOrUpdateArticle s A).2.id
        = some (CreateOrUpdateArticle s A).2 ∧
    ∀ t ∈ (CreateOrUpdateArticle s A).2.tags,
      (CreateOrUpdateArticle s A).2 ∈
        listByTag (rebuildIndex (CreateOrUpdateArticle s A).1) t := by
  simp only [CreateOrUpdateArticle]
  by_cases hid : A.id = 0
  · rw [if_pos hid]
    have hdel' : ({ A with id := findUniqueArticleId s.articles } :
        Article).isDeleted = false := hdel
    have hfr : ∀ b ∈ s.articles,
        b.id ≠ ({ A with id := findUniqueArticleId s.articles } :
          Article).id := by
      intro b hb heq
      have heq' : b.id = findUniqueArticleId s.articles := by simpa using heq
      exact findUniqueArticleId_fresh s.articles hnd
        (heq' ▸ List.mem_map_of_mem Article.id hb)
    exact ⟨getById_append_fresh s.articles _ hfr hdel',
      fun t ht => mem_listByTag_of_mem _ _ (by simp) hdel' t ht⟩
  · rw [if_neg hid]
    rcases hex with h0 | hex
    · exact absurd h0 hid
    refine ⟨getById_update s.articles A hex hdel, ?_⟩
    intro t ht
    obtain ⟨b, hb, heq⟩ := hex
    exact mem_listByTag_of_mem _ _
      (List.mem_map.mpr ⟨b, hb, by rw [if_pos heq]⟩) hdel t ht

/-! ## Claim C5 -/

/-- Claim C5: a successful `createNewOrUpdatePost` invalidates the index
before the response is produced, and the index rebuilt from the resulting
store serves the written article: `getArticleById` returns it and it is
listed under each of its tags (no stale-read window).  The hypotheses say
the store's ids are distinct and that an existing article being edited is
actually present in the store, as `handleAppEdit` guarantees by fetching it
via `GetArticleById`. -/
theorem c5_index_reflects_write (r : EditRequest) (article : Option Article)
    (s : Store) (now : Nat) (art' : Article)
    (h : (createNewOrUpdatePost r article s now false false).result
        = EditResult.redirect art')
    (hnd : (s.articles.map Article.id).Nodup)
    (hart : ∀ a, article = some a →
      a.id = 0 ∨ ∃ b ∈ s.articles, b.id = a.id) :
    (createNewOrUpdatePost r article s now false false).indexInvalidated
        = true ∧
    getArticleById
      (rebuildIndex (createNewOrUpdatePost r article s now false false).store)
      art'.id = some art' ∧
    ∀ t ∈ art'.tags, art' ∈
      listByTag
        (rebuildIndex (createNewOrUpdatePost r article s now false
          false).store) t := by
  by_cases hv : validFormat (formatNameToId (trimSpace r.format)) = true
  case neg => simp [createNewOrUpdatePost, hv] at h
  by_cases ht : trimSpace r.title = []
  case pos => simp [createNewOrUpdatePost, hv, ht] at h
  by_cases hb : byteLen (trimSpace r.note) < 10
  case pos => simp [createNewOrUpdatePost, hv, ht, hb] at h
  by_cases hc : checkboxToBool (trimSpace r.update_published_on) = true
  all_goals cases article with
  | none =>
    simp only [createNewOrUpdatePost, hv, ht, hb, hc, Bool.not_true,
      Bool.not_false, Bool.false_eq_true, if_false, if_true,
      EditResult.redirect.injEq] at h ⊢
    refine ⟨trivial, ?_⟩
    rw [← h]
    exact index_serves_CreateOrUpdate s _ rfl hnd (Or.inl rfl)
  | some a =>
    simp only [createNewOrUpdatePost, hv, ht, hb, hc, Bool.not_true,
      Bool.not_false, Bool.false_eq_true, if_false, if_true,
      EditResult.redirect.injEq] at h ⊢
    refine ⟨trivial, ?_⟩
    rw [← h]
    refine index_serves_CreateOrUpdate s _ rfl hnd ?_
    rcases hart a rfl with h0 | hex
    · exact Or.inl (by simpa using h0)
    · obtain ⟨b, hbmem, hbid⟩ := hex
      exact Or.inr ⟨b, hbmem, by simpa using hbid⟩

/-- Witness for `c5_index_reflects_write`: creating a post in a store that
already holds article 1 makes the rebuilt index serve the new article 2 by
id and under its tag. -/
theorem c5_index_reflects_write_witness :
    ((createNewOrUpdatePost ⟨"text".data, "V".data, "0123456789".data, [],
        "t".data, []⟩ none ⟨[⟨1, 0, "x".data, false, false, [], []⟩]⟩ 4 false
        false).result =
      EditResult.redirect ⟨2, 4, "V".data, false, false, [['t']],
        [⟨3, "0123456789".data⟩]⟩) ∧
    getArticleById
      (rebuildIndex (createNewOrUpdatePost ⟨"text".data, "V".data,
        "0123456789".data, [], "t".data, []⟩ none
        ⟨[⟨1, 0, "x".data, false, false, [], []⟩]⟩ 4 false false).store) 2 =
      some ⟨2, 4, "V".data, false, false, [['t']], [⟨3, "0123456789".data⟩]⟩ :=
  ⟨by decide,
   (c5_index_reflects_write ⟨"text".data, "V".data, "0123456789".data, [],
      "t".data, []⟩ none ⟨[⟨1, 0, "x".data, false, false, [], []⟩]⟩ 4
      ⟨2, 4, "V".data, false, false, [['t']], [⟨3, "0123456789".data⟩]⟩
      (by decide) (by decide) (fun a ha => Option.noConfusion ha)).2.1⟩

/-! ## Small list facts used by the sanitizer proofs -/

theorem mem_of_headq {α : Type} {l : List α} {b : α} (h : l.head? = some b) :
    b ∈ l := by
  cases l with
  | nil => simp at h
  | cons x xs => simp at h; simp [h]

theorem mem_of_getLastq {α : Type} {l : List α} {b : α}
    (h : l.getLast? = some b) : b ∈ l := by
  rw [← List.head?_reverse] at h
  exact List.mem_reverse.mp (mem_of_headq h)

theorem headq_append_left {α : Type} {l : List α} (l' : List α)
    (h : l ≠ []) : (l ++ l').head? = l.head? := by
  cases l with
  | nil => exact absurd rfl h
  | cons x xs => rfl

theorem getLastq_append_right {α : Type} (l : List α) {l' : List α}
    (h : l' ≠ []) : (l ++ l').getLast? = l'.getLast? := by
  rw [← List.head?_reverse, ← List.head?_reverse, List.reverse_append]
  exact headq_append_left l.reverse (by simpa using h)

theorem getLastq_drop {α : Type} {l : List α} {n : Nat}
    (h : l.drop n ≠ []) : (l.drop n).getLast? = l.getLast? := by
  conv_rhs => rw [← List.take_append_drop n l]
  rw [getLastq_append_right _ h]

theorem headq_dropWhile_not {α : Type} (p : α → Bool) (l : List α) {b : α}
    (h : (l.dropWhile p).head? = some b) : p b = false := by
  induction l with
  | nil => simp at h
  | cons x xs ih =>
    rw [List.dropWhile_cons] at h
    split at h
    · exact ih h
    · next hp =>
      simp only [List.head?_cons, Option.some.injEq] at h
      subst h
      simpa using hp

theorem char_eq_of_toNat_eq {c d : Char} (h : c.toNat = d.toNat) : c = d :=
  Char.ext (UInt32.ext h)

/-! ## UTF-8 encoder and decoder facts -/

theorem utf8EncodeRune_ascii {r : Nat} (h : r < 0x80) :
    utf8EncodeRune r = [r] := by
  simp [utf8EncodeRune, h]

theorem utf8EncodeRune_ne_nil (r : Nat) : utf8EncodeRune r ≠ [] := by
  simp only [utf8EncodeRune]
  split <;> try simp
  split <;> try simp
  split <;> simp

theorem utf8EncodeRune_high {r : Nat} (h : 0x80 ≤ r) :
    ∀ b ∈ utf8EncodeRune r, 0x80 ≤ b := by
  intro b hb
  simp only [utf8EncodeRune] at hb
  split at hb
  · omega
  · split at hb
    · simp only [List.mem_cons, List.not_mem_nil, or_false] at hb
      rcases hb with h | h <;> omega
    · split at hb
      · simp only [List.mem_cons, List.not_mem_nil, or_false] at hb
        rcases hb with h | h | h <;> omega
      · simp only [List.mem_cons, List.not_mem_nil, or_false] at hb
        rcases hb with h | h | h | h <;> omega

theorem utf8DecodeOne_ascii {b0 : Nat} (rest : List Nat) (h : b0 < 0x80) :
    utf8DecodeOne (b0 :: rest) = (b0, 1) := by
  simp [utf8DecodeOne, h]

theorem utf8DecodeOne_bounds (b0 : Nat) (rest : List Nat) :
    1 ≤ (utf8DecodeOne (b0 :: rest)).2 ∧
      (0x80 ≤ b0 → 0x80 ≤ (utf8DecodeOne (b0 :: rest)).1) := by
  by_cases h1 : b0 < 0x80
  · rw [utf8DecodeOne_ascii rest h1]
    exact ⟨le_refl 1, fun h => by omega⟩
  · by_cases h2 : b0 < 0xC2
    · simp only [utf8DecodeOne, if_neg h1, if_pos h2]
      exact ⟨le_refl 1, fun _ => by norm_num⟩
    · by_cases h3 : b0 < 0xE0
      · cases rest with
        | nil =>
          simp only [utf8DecodeOne, if_neg h1, if_neg h2, if_pos h3]
          exact ⟨le_refl 1, fun _ => by norm_num⟩
        | cons b1 r2 =>
          by_cases hc : 0x80 ≤ b1 ∧ b1 < 0xC0
          · simp only [utf8DecodeOne, if_neg h1, if_neg h2, if_pos h3,
              if_pos hc]
            exact ⟨by norm_num, fun _ => by omega⟩
          · simp only [utf8DecodeOne, if_neg h1, if_neg h2, if_pos h3,
              if_neg hc]
            exact ⟨le_refl 1, fun _ => by norm_num⟩
      · by_cases h4 : b0 < 0xF0
        · cases rest with
          | nil =>
            simp only [utf8DecodeOne, if_neg h1, if_neg h2, if_neg h3,
              if_pos h4]
            exact ⟨le_refl 1, fun _ => by norm_num⟩
          | cons b1 r2 =>
            cases r2 with
            | nil =>
              simp only [utf8DecodeOne, if_neg h1, if_neg h2, if_neg h3,
                if_pos h4]
              exact ⟨le_refl 1, fun _ => by norm_num⟩
            | cons b2 r3 =>
              by_cases hc : (if b0 = 0xE0 then 0xA0 ≤ b1 else 0x80 ≤ b1) ∧
                  (if b0 = 0xED then b1 < 0xA0 else b1 < 0xC0) ∧
                  0x80 ≤ b2 ∧ b2 < 0xC0
              · simp only [utf8DecodeOne, if_neg h1, if_neg h2, if_neg h3,
                  if_pos h4, if_pos hc]
                refine ⟨by norm_num, fun _ => ?_⟩
                obtain ⟨hc1, _, _⟩ := hc
                by_cases hE : b0 = 0xE0
                · rw [if_pos hE] at hc1
                  omega
                · rw [if_neg hE] at hc1
                  omega
              · simp only [utf8DecodeOne, if_neg h1, if_neg h2, if_neg h3,
                  if_pos h4, if_neg hc]
                exact ⟨le_refl 1, fun _ => by norm_num⟩
        · by_cases h5 : b0 < 0xF5
          · cases rest with
            | nil =>
              simp only [utf8DecodeOne, if_neg h1, if_neg h2, if_neg h3,
                if_neg h4, if_pos h5]
              exact ⟨le_refl 1, fun _ => by norm_num⟩
            | cons b1 r2 =>
              cases r2 with
              | nil =>
                simp only [utf8DecodeOne, if_neg h1, if_neg h2, if_neg h3,
                  if_neg h4, if_pos h5]
                exact ⟨le_refl 1, fun _ => by norm_num⟩
              | cons b2 r3 =>
                cases r3 with
                | nil =>
                  simp only [utf8DecodeOne, if_neg h1, if_neg h2, if_neg h3,
                    if_neg h4, if_pos h5]
                  exact ⟨le_refl 1, fun _ => by norm_num⟩
                | cons b3 r4 =>
                  by_cases hc : (if b0 = 0xF0 then 0x90 ≤ b1 else 0x80 ≤ b1) ∧
                      (if b0 = 0xF4 then b1 < 0x90 else b1 < 0xC0) ∧
                      0x80 ≤ b2 ∧ b2 < 0xC0 ∧ 0x80 ≤ b3 ∧ b3 < 0xC0
                  · simp only [utf8DecodeOne, if_neg h1, if_neg h2, if_neg h3,
                      if_neg h4, if_pos h5, if_pos hc]
                    refine ⟨by norm_num, fun _ => ?_⟩
                    obtain ⟨hc1, _, _⟩ := hc
                    by_cases hF : b0 = 0xF0
                    · rw [if_pos hF] at hc1
                      omega
                    · rw [if_neg hF] at hc1
                      omega
                  · simp only [utf8DecodeOne, if_neg h1, if_neg h2, if_neg h3,
                      if_neg h4, if_pos h5, if_neg hc]
                    exact ⟨le_refl 1, fun _ => by norm_num⟩
          · simp only [utf8DecodeOne, if_neg h1, if_neg h2, if_neg h3,
              if_neg h4, if_neg h5]
            exact ⟨le_refl 1, fun _ => by norm_num⟩

/-! ## Facts about the modelled `unicode.ToLower` fragment -/

theorem goToLower_ascii {b : Nat} (h : b < 0x80) :
    (goToLower b = b ∧ ¬ (0x41 ≤ b ∧ b ≤ 0x5A)) ∨
      (goToLower b = b + 0x20 ∧ 0x41 ≤ b ∧ b ≤ 0x5A) := by
  by_cases hu : 0x41 ≤ b ∧ b ≤ 0x5A
  · right
    exact ⟨by simp [goToLower, hu], hu⟩
  · left
    refine ⟨?_, hu⟩
    simp only [goToLower, if_neg hu]
    rw [if_neg (by omega), if_neg (by omega), if_neg (by omega),
      if_neg (by omega)]

theorem goToLower_ascii_lt {b : Nat} (h : b < 0x80) : goToLower b < 0x80 := by
  rcases goToLower_ascii h with ⟨he, _⟩ | ⟨he, hu⟩ <;> omega

theorem isBadOutByte_high {b : Nat} (h : 0x80 ≤ b) :
    isBadOutByte b = false := by
  simp only [isBadOutByte, toRemoveCodes, List.mem_cons, List.not_mem_nil,
    or_false, Bool.or_eq_false_iff, decide_eq_false_iff_not, beq_eq_false_iff_ne,
    ne_eq, Bool.and_eq_false_iff, decide_eq_false_iff_not, not_le]
  omega

theorem enc_goToLower_high {r : Nat} (h : 0x80 ≤ r) :
    ∀ b ∈ utf8EncodeRune (goToLower r),
      isBadOutByte b = false ∧ b ≠ 0x2D := by
  intro b hb
  have hcases : goToLower r = 0x6B ∨ (0x80 ≤ goToLower r) := by
    simp only [goToLower, if_neg (show ¬ (0x41 ≤ r ∧ r ≤ 0x5A) by omega)]
    split
    · right; norm_num
    · split
      · right; norm_num
      · split
        · left; rfl
        · split
          · right; norm_num
          · right; omega
  rcases hcases with hk | hh
  · rw [hk, utf8EncodeRune_ascii (by norm_num)] at hb
    simp only [List.mem_singleton] at hb
    subst hb
    exact ⟨by decide, by decide⟩
  · have := utf8EncodeRune_high hh b hb
    exact ⟨isBadOutByte_high this, by omega⟩

/-! ## Facts about the byte-level `strings.ToLower` -/

theorem toLowerBytesFuel_nil (fuel : Nat) : toLowerBytesFuel fuel [] = [] := by
  cases fuel <;> rfl

theorem toLowerBytesFuel_ne_nil {fuel : Nat} {bs : List Nat} (hf : 1 ≤ fuel)
    (hbs : bs ≠ []) : toLowerBytesFuel fuel bs ≠ [] := by
  cases fuel with
  | zero => omega
  | succ f =>
    cases bs with
    | nil => exact absurd rfl hbs
    | cons b0 rest =>
      simp only [toLowerBytesFuel, ne_eq, List.append_eq_nil]
      intro ⟨henc, _⟩
      exact utf8EncodeRune_ne_nil _ henc

theorem toLowerBytesFuel_good : ∀ (fuel : Nat) (bs : List Nat),
    bs.length ≤ fuel →
    (∀ b ∈ bs, b < 0x80 → (b ∉ toRemoveCodes ∧ b ≠ 0x20 ∧ b ≠ 0x5F)) →
    ∀ b ∈ toLowerBytesFuel fuel bs, isBadOutByte b = false := by
  intro fuel
  induction fuel with
  | zero =>
    intro bs hlen _ b hb
    have : bs = [] := List.length_eq_zero.mp (by omega)
    subst this
    simp [toLowerBytesFuel_nil] at hb
  | succ f ih =>
    intro bs hlen hok b hb
    cases bs with
    | nil => simp [toLowerBytesFuel_nil] at hb
    | cons b0 rest =>
      simp only [toLowerBytesFuel, List.mem_append] at hb
      rcases hb with hb | hb
      · by_cases h0 : b0 < 0x80
        · rw [utf8DecodeOne_ascii rest h0] at hb
          obtain ⟨hrm, h20, h5F⟩ := hok b0 (by simp) h0
          rcases goToLower_ascii h0 with ⟨he, hnu⟩ | ⟨he, hu⟩
          · rw [he, utf8EncodeRune_ascii h0] at hb
            simp only [List.mem_singleton] at hb
            subst hb
            simp only [isBadOutByte, toRemoveCodes, List.mem_cons,
              List.not_mem_nil, or_false] at hrm ⊢
            simp only [Bool.or_eq_false_iff, decide_eq_false_iff_not,
              beq_eq_false_iff_ne, ne_eq, Bool.and_eq_false_iff,
              decide_eq_false_iff_not, not_le]
            push_neg at hrm
            omega
          · rw [he, utf8EncodeRune_ascii (by omega)] at hb
            simp only [List.mem_singleton] at hb
            subst hb
            simp only [isBadOutByte, toRemoveCodes, List.mem_cons,
              List.not_mem_nil, or_false]
            simp only [Bool.or_eq_false_iff, decide_eq_false_iff_not,
              beq_eq_false_iff_ne, ne_eq, Bool.and_eq_false_iff,
              decide_eq_false_iff_not, not_le]
            omega
        · have hhigh := (utf8DecodeOne_bounds b0 rest).2 (by omega)
          exact (enc_goToLower_high hhigh b hb).1
      · refine ih _ ?_ ?_ b hb
        · have := List.length_drop (utf8DecodeOne (b0 :: rest)).2.pred rest
          simp only [List.length_cons] at hlen
          have hdl : (rest.drop ((utf8DecodeOne (b0 :: rest)).2 - 1)).length
              ≤ rest.length := by
            rw [List.length_drop]; omega
          omega
        · intro x hx
          exact hok x (by simp [List.mem_of_mem_drop hx])

theorem toLowerBytesFuel_head (fuel : Nat) (bs : List Nat)
    (h0 : ∀ b0, bs.head? = some b0 → b0 ∉ trimCutset) :
    ∀ b, (toLowerBytesFuel fuel bs).head? = some b → b ≠ 0x2D := by
  intro b hb
  cases bs with
  | nil => rw [toLowerBytesFuel_nil] at hb; simp at hb
  | cons b0 rest =>
    cases fuel with
    | zero => simp [toLowerBytesFuel] at hb
    | succ f =>
      simp only [toLowerBytesFuel] at hb
      rw [headq_append_left _ (utf8EncodeRune_ne_nil _)] at hb
      have hb0 := h0 b0 rfl
      by_cases hlt : b0 < 0x80
      · rw [utf8DecodeOne_ascii rest hlt] at hb
        rcases goToLower_ascii hlt with ⟨he, _⟩ | ⟨he, hu⟩
        · rw [he, utf8EncodeRune_ascii hlt] at hb
          simp only [List.head?_cons, Option.some.injEq] at hb
          subst hb
          simp only [trimCutset, List.mem_cons, List.not_mem_nil, or_false]
            at hb0
          push_neg at hb0
          omega
        · rw [he, utf8EncodeRune_ascii (by omega)] at hb
          simp only [List.head?_cons, Option.some.injEq] at hb
          subst hb
          omega
      · have hhigh := (utf8DecodeOne_bounds b0 rest).2 (by omega)
        exact (enc_goToLower_high hhigh b (mem_of_headq hb)).2

theorem toLowerBytesFuel_last : ∀ (fuel : Nat) (bs : List Nat),
    bs.length ≤ fuel →
    (∀ bl, bs.getLast? = some bl → bl ∉ trimCutset) →
    ∀ b, (toLowerBytesFuel fuel bs).getLast? = some b → b ≠ 0x2D := by
  intro fuel
  induction fuel with
  | zero =>
    intro bs hlen _ b hb
    have : bs = [] := List.length_eq_zero.mp (by omega)
    subst this
    rw [toLowerBytesFuel_nil] at hb
    simp at hb
  | succ f ih =>
    intro bs hlen hlast b hb
    cases bs with
    | nil => rw [toLowerBytesFuel_nil] at hb; simp at hb
    | cons b0 rest =>
      simp only [toLowerBytesFuel] at hb
      by_cases hrest : rest.drop ((utf8DecodeOne (b0 :: rest)).2 - 1) = []
      · rw [hrest, toLowerBytesFuel_nil, List.append_nil] at hb
        by_cases hlt : b0 < 0x80
        · rw [utf8DecodeOne_ascii rest hlt] at hb hrest
          simp only [List.drop_zero] at hrest
          subst hrest
          have hb0 := hlast b0 rfl
          rcases goToLower_ascii hlt with ⟨he, _⟩ | ⟨he, hu⟩
          · rw [he, utf8EncodeRune_ascii hlt] at hb
            simp only [List.getLast?_singleton, Option.some.injEq] at hb
            subst hb
            simp only [trimCutset, List.mem_cons, List.not_mem_nil, or_false]
              at hb0
            push_neg at hb0
            omega
          · rw [he, utf8EncodeRune_ascii (by omega)] at hb
            simp only [List.getLast?_singleton, Option.some.injEq] at hb
            subst hb
            omega
        · have hhigh := (utf8DecodeOne_bounds b0 rest).2 (by omega)
          exact (enc_goToLower_high hhigh b (mem_of_getLastq hb)).2
      · have hne : toLowerBytesFuel f
            (rest.drop ((utf8DecodeOne (b0 :: rest)).2 - 1)) ≠ [] := by
          refine toLowerBytesFuel_ne_nil ?_ hrest
          have := List.length_pos.mpr hrest
          rw [List.length_drop] at this
          simp only [List.length_cons] at hlen
          omega
        rw [getLastq_append_right _ hne] at hb
        refine ih _ ?_ ?_ b hb
        · rw [List.length_drop]
          simp only [List.length_cons] at hlen
          omega
        · intro bl hbl
          refine hlast bl ?_
          rw [getLastq_drop hrest] at hbl
          have hrne : rest ≠ [] := by
            intro hr
            exact hrest (by simp [hr])
          calc (b0 :: rest).getLast? = rest.getLast? :=
                getLastq_append_right [b0] hrne
            _ = some bl := hbl

theorem toLowerBytesFuel_ascii_len : ∀ (fuel : Nat) (bs : List Nat),
    bs.length ≤ fuel → (∀ b ∈ bs, b < 0x80) →
    (toLowerBytesFuel fuel bs).length = bs.length := by
  intro fuel
  induction fuel with
  | zero =>
    intro bs hlen _
    have : bs = [] := List.length_eq_zero.mp (by omega)
    subst this
    rw [toLowerBytesFuel_nil]
  | succ f ih =>
    intro bs hlen hasc
    cases bs with
    | nil => rw [toLowerBytesFuel_nil]
    | cons b0 rest =>
      have h0 : b0 < 0x80 := hasc b0 (by simp)
      have hr : rest.length ≤ f := by
        simp only [List.length_cons] at hlen; omega
      simp only [toLowerBytesFuel, utf8DecodeOne_ascii rest h0,
        utf8EncodeRune_ascii (goToLower_ascii_lt h0), List.length_append,
        List.length_cons]
      rw [show (1 : Nat) - 1 = 0 from rfl, List.drop_zero,
        ih rest hr (fun x hx => hasc x (by simp [hx]))]
      simp only [List.length_nil]
      omega

/-! ## Facts about the sanitizer's rune loop and trim -/

theorem mem_toRemoveCodes_lt {b : Nat} (h : b ∈ toRemoveCodes) : b < 0x80 := by
  simp only [toRemoveCodes, List.mem_cons, List.not_mem_nil, or_false] at h
  rcases h with h | h | h | h | h | h | h | h | h | h | h | h | h | h | h <;>
    omega

theorem encodeRuneBuf3_lt {c : Char} (h : c.toNat < 0x10000) :
    encodeRuneBuf3 c = some (utf8EncodeRune c.toNat) := by
  simp [encodeRuneBuf3, h]

theorem encodeRuneBuf3_some {c : Char} {bs : List Nat}
    (h : encodeRuneBuf3 c = some bs) :
    c.toNat < 0x10000 ∧ bs = utf8EncodeRune c.toNat := by
  simp only [encodeRuneBuf3] at h
  split at h
  · next hlt => exact ⟨hlt, (Option.some.inj h).symm⟩
  · exact absurd h (by simp)

theorem encodeRuneBuf3_none {c : Char} (h : 0x10000 ≤ c.toNat) :
    encodeRuneBuf3 c = none := by
  simp only [encodeRuneBuf3, ite_eq_right_iff]
  intro hlt
  omega

theorem sanitizeLoop_ascii_ok : ∀ (s : List Char) (prev : Char)
    (out : List Nat), sanitizeLoop prev s = some out →
    ∀ b ∈ out, b < 0x80 → (b ∉ toRemoveCodes ∧ b ≠ 0x20 ∧ b ≠ 0x5F) := by
  intro s
  induction s with
  | nil =>
    intro prev out h b hb
    simp only [sanitizeLoop, Option.some.injEq] at h
    subst h
    simp at hb
  | cons c cs ih =>
    intro prev out h b hb hlt
    simp only [sanitizeLoop] at h
    split at h
    · exact ih prev out h b hb hlt
    · next hrm =>
      by_cases hmap : c = ' ' ∨ c = '_'
      · rw [if_pos hmap] at h
        split at h
        · exact ih prev out h b hb hlt
        · rw [Option.bind_eq_some] at h
          obtain ⟨bs, henc, hm⟩ := h
          rw [Option.map_eq_some'] at hm
          obtain ⟨rest, hrec, hout⟩ := hm
          subst hout
          obtain ⟨_, hbs⟩ := encodeRuneBuf3_some henc
          subst hbs
          simp only [List.mem_append] at hb
          rcases hb with hb | hb
          · rw [utf8EncodeRune_ascii (by decide)] at hb
            simp only [List.mem_singleton] at hb
            subst hb
            exact ⟨by decide, by decide, by decide⟩
          · exact ih '-' rest hrec b hb hlt
      · rw [if_neg hmap] at h
        split at h
        · exact ih prev out h b hb hlt
        · rw [Option.bind_eq_some] at h
          obtain ⟨bs, henc, hm⟩ := h
          rw [Option.map_eq_some'] at hm
          obtain ⟨rest, hrec, hout⟩ := hm
          subst hout
          obtain ⟨_, hbs⟩ := encodeRuneBuf3_some henc
          subst hbs
          simp only [List.mem_append] at hb
          rcases hb with hb | hb
          · by_cases hc : c.toNat < 0x80
            · rw [utf8EncodeRune_ascii hc] at hb
              simp only [List.mem_singleton] at hb
              subst hb
              push_neg at hmap
              refine ⟨hrm, ?_, ?_⟩
              · intro h20
                exact hmap.1 (char_eq_of_toNat_eq (by simpa using h20))
              · intro h5F
                exact hmap.2 (char_eq_of_toNat_eq (by simpa using h5F))
            · have := utf8EncodeRune_high (by omega) b hb
              omega
          · exact ih c rest hrec b hb hlt

theorem sanitizeLoop_ascii : ∀ (s : List Char) (prev : Char),
    (∀ c ∈ s, c.toNat < 0x80) →
    ∃ out, sanitizeLoop prev s = some out ∧ ∀ b ∈ out, b < 0x80 := by
  intro s
  induction s with
  | nil =>
    intro prev _
    exact ⟨[], rfl, by simp⟩
  | cons c cs ih =>
    intro prev hasc
    have hcs : ∀ x ∈ cs, x.toNat < 0x80 := fun x hx => hasc x (by simp [hx])
    have hc : c.toNat < 0x80 := hasc c (by simp)
    simp only [sanitizeLoop]
    split
    · exact ih prev hcs
    · by_cases hmap : c = ' ' ∨ c = '_'
      · rw [if_pos hmap]
        split
        · exact ih prev hcs
        · obtain ⟨rest, hrec, hrasc⟩ := ih '-' hcs
          refine ⟨utf8EncodeRune (Char.toNat '-') ++ rest, ?_, ?_⟩
          · rw [encodeRuneBuf3_lt (by decide), hrec]
            rfl
          · intro b hb
            rcases List.mem_append.mp hb with hb | hb
            · rw [utf8EncodeRune_ascii (by decide)] at hb
              simp only [List.mem_singleton] at hb
              subst hb
              decide
            · exact hrasc b hb
      · rw [if_neg hmap]
        split
        · exact ih prev hcs
        · obtain ⟨rest, hrec, hrasc⟩ := ih c hcs
          refine ⟨utf8EncodeRune c.toNat ++ rest, ?_, ?_⟩
          · rw [encodeRuneBuf3_lt (by omega), hrec]
            rfl
          · intro b hb
            rcases List.mem_append.mp hb with hb | hb
            · rw [utf8EncodeRune_ascii hc] at hb
              simp only [List.mem_singleton] at hb
              omega
            · exact hrasc b hb

theorem sanitizeLoop_total : ∀ (s : List Char) (prev : Char),
    (∀ c ∈ s, c.toNat < 0x10000) →
    ∃ out, sanitizeLoop prev s = some out := by
  intro s
  induction s with
  | nil => exact fun prev _ => ⟨[], rfl⟩
  | cons c cs ih =>
    intro prev h16
    have hcs : ∀ x ∈ cs, x.toNat < 0x10000 := fun x hx => h16 x (by simp [hx])
    have hc : c.toNat < 0x10000 := h16 c (by simp)
    simp only [sanitizeLoop]
    split
    · exact ih prev hcs
    · by_cases hmap : c = ' ' ∨ c = '_'
      · rw [if_pos hmap]
        split
        · exact ih prev hcs
        · obtain ⟨rest, hrec⟩ := ih '-' hcs
          exact ⟨_, by rw [encodeRuneBuf3_lt (by decide), hrec]; rfl⟩
      · rw [if_neg hmap]
        split
        · exact ih prev hcs
        · obtain ⟨rest, hrec⟩ := ih c hcs
          exact ⟨_, by rw [encodeRuneBuf3_lt hc, hrec]; rfl⟩

theorem sanitizeLoop_panic : ∀ (s : List Char) (prev : Char),
    prev.toNat < 0x10000 → (∃ c ∈ s, 0x10000 ≤ c.toNat) →
    sanitizeLoop prev s = none := by
  intro s
  induction s with
  | nil =>
    intro prev _ hex
    simp at hex
  | cons c cs ih =>
    intro prev hprev hex
    by_cases hast : 0x10000 ≤ c.toNat
    · have hrm : ¬ c.toNat ∈ toRemoveCodes := fun hm => by
        have := mem_toRemoveCodes_lt hm
        omega
      have hmap : ¬ (c = ' ' ∨ c = '_') := by
        rintro (he | he) <;> subst he <;> exact absurd hast (by decide)
      have hne : ¬ (c = prev) := fun he => by
        rw [he] at hast
        omega
      simp only [sanitizeLoop]
      rw [if_neg hrm, if_neg hmap, if_neg hne, encodeRuneBuf3_none hast]
      rfl
    · have hex' : ∃ x ∈ cs, 0x10000 ≤ x.toNat := by
        obtain ⟨x, hx, hax⟩ := hex
        rcases List.mem_cons.mp hx with he | hm
        · subst he; omega
        · exact ⟨x, hm, hax⟩
      simp only [sanitizeLoop]
      split
      · exact ih prev hprev hex'
      · by_cases hmap : c = ' ' ∨ c = '_'
        · rw [if_pos hmap]
          split
          · exact ih prev hprev hex'
          · rw [encodeRuneBuf3_lt (by decide), ih '-' (by decide) hex']
            rfl
        · rw [if_neg hmap]
          split
          · exact ih prev hprev hex'
          · rw [encodeRuneBuf3_lt (by omega), ih c (by omega) hex']
            rfl

theorem trimGo_subset {l : List Nat} {b : Nat} (h : b ∈ trimGo l) : b ∈ l := by
  simp only [trimGo] at h
  rw [List.mem_reverse] at h
  have h1 := (List.dropWhile_sublist (l := (l.dropWhile
    (· ∈ trimCutset)).reverse) (· ∈ trimCutset)).subset h
  rw [List.mem_reverse] at h1
  exact (List.dropWhile_sublist (· ∈ trimCutset)).subset h1

theorem trimGo_headq {l : List Nat} {b : Nat}
    (h : (trimGo l).head? = some b) : b ∉ trimCutset := by
  simp only [trimGo] at h
  have hne : ((l.dropWhile (· ∈ trimCutset)).reverse.dropWhile
      (· ∈ trimCutset)).reverse ≠ [] := by
    intro hnil
    rw [hnil] at h
    simp at h
  set X := l.dropWhile (· ∈ trimCutset) with hX
  set Y := X.reverse.dropWhile (· ∈ trimCutset) with hY
  have hsplit : X.reverse = X.reverse.takeWhile (· ∈ trimCutset) ++ Y :=
    (List.takeWhile_append_dropWhile _ _).symm
  have hXeq : X = Y.reverse ++ (X.reverse.takeWhile (· ∈ trimCutset)).reverse := by
    calc X = X.reverse.reverse := (List.reverse_reverse X).symm
      _ = (X.reverse.takeWhile (· ∈ trimCutset) ++ Y).reverse := by
          rw [← hsplit]
      _ = Y.reverse ++ (X.reverse.takeWhile (· ∈ trimCutset)).reverse := by
          rw [List.reverse_append]
  have hhead : X.head? = some b := by
    rw [hXeq, headq_append_left _ (by simpa using hne)]
    exact h
  have := headq_dropWhile_not (· ∈ trimCutset) l hhead
  simpa using this

theorem trimGo_getLastq {l : List Nat} {b : Nat}
    (h : (trimGo l).getLast? = some b) : b ∉ trimCutset := by
  simp only [trimGo] at h
  rw [← List.head?_reverse, List.reverse_reverse] at h
  have := headq_dropWhile_not (· ∈ trimCutset)
    (l.dropWhile (· ∈ trimCutset)).reverse h
  simpa using this

theorem trimGo_length_le (l : List Nat) : (trimGo l).length ≤ l.length := by
  simp only [trimGo, List.length_reverse]
  calc ((l.dropWhile (· ∈ trimCutset)).reverse.dropWhile
        (· ∈ trimCutset)).length
      ≤ (l.dropWhile (· ∈ trimCutset)).reverse.length :=
        (List.dropWhile_sublist _).length_le
    _ = (l.dropWhile (· ∈ trimCutset)).length := List.length_reverse _
    _ ≤ l.length := (List.dropWhile_sublist _).length_le

/-! ## Claim C10 -/

/-- Claim C10, counterexample: sixteen alternating Ⱥ/Ⱦ characters (each two
bytes, so the loop's 3-byte encode buffer is fine and nothing is truncated
at 32 bytes) survive the rune loop untouched, but `strings.ToLower` —
applied AFTER the 32-byte truncation — lowercases each two-byte character
to a three-byte one, so `sanitizeForFile` returns 48 bytes, refuting "at
most 32 bytes". -/
theorem c10_counterexample :
    (sanitizeForFile c10ExampleInput).map List.length = some 48 ∧
      ¬ (48 ≤ 32) := by
  decide

/-- Claim C10 as amended: `sanitizeForFile` panics instead of returning on
any input containing a character above U+FFFF (the rune loop encodes
through a 3-byte buffer, and `utf8.EncodeRune`'s 4-byte branch indexes
`buf[3]`), and returns on exactly the other inputs.  Whenever it returns,
the result contains no uppercase ASCII letter, none of the fifteen removed
punctuation characters, no space and no underscore (as bytes, which for
these ASCII values coincides with characters), and neither starts nor ends
with a `'-'` byte; the 32-byte bound only holds for the buffer before
lowercasing — it is guaranteed for all-ASCII input, while lowercasing can
expand a maximal 32-byte buffer of multi-byte characters (to 48 bytes in
`c10_counterexample`). -/
theorem c10_amended (s : List Char) :
    (∀ out, sanitizeForFile s = some out →
      (∀ b ∈ out, isBadOutByte b = false) ∧
      (∀ b, out.head? = some b → b ≠ 0x2D) ∧
      (∀ b, out.getLast? = some b → b ≠ 0x2D)) ∧
    ((∀ c ∈ s, c.toNat < 0x10000) → ∃ out, sanitizeForFile s = some out) ∧
    ((∃ c ∈ s, 0x10000 ≤ c.toNat) → sanitizeForFile s = none) ∧
    ((∀ c ∈ s, c.toNat < 0x80) → ∀ out, sanitizeForFile s = some out →
      out.length ≤ 32) := by
  refine ⟨?_, ?_, ?_, ?_⟩
  · intro out hout
    rw [sanitizeForFile, Option.map_eq_some'] at hout
    obtain ⟨res, hres, hfout⟩ := hout
    subst hfout
    simp only [toLowerBytes]
    set bs := trimGo (res.take 32) with hbs
    have hpre : ∀ x ∈ bs, x < 0x80 →
        (x ∉ toRemoveCodes ∧ x ≠ 0x20 ∧ x ≠ 0x5F) :=
      fun x hx hxlt => sanitizeLoop_ascii_ok s (Char.ofNat 0) res hres x
        (List.take_subset 32 _ (trimGo_subset hx)) hxlt
    refine ⟨?_, ?_, ?_⟩
    · intro b hb
      exact toLowerBytesFuel_good bs.length bs (le_refl _) hpre b hb
    · intro b hb
      exact toLowerBytesFuel_head bs.length bs
        (fun b0 h0 => trimGo_headq h0) b hb
    · intro b hb
      exact toLowerBytesFuel_last bs.length bs (le_refl _)
        (fun bl hl => trimGo_getLastq hl) b hb
  · intro h16
    obtain ⟨res, hres⟩ := sanitizeLoop_total s (Char.ofNat 0) h16
    exact ⟨_, by rw [sanitizeForFile, hres]; rfl⟩
  · intro hex
    rw [sanitizeForFile, sanitizeLoop_panic s (Char.ofNat 0) (by decide) hex]
    rfl
  · intro hasc out hout
    rw [sanitizeForFile, Option.map_eq_some'] at hout
    obtain ⟨res, hres, hfout⟩ := hout
    subst hfout
    obtain ⟨res', hres', hrasc⟩ := sanitizeLoop_ascii s (Char.ofNat 0) hasc
    rw [hres] at hres'
    have hresq : res' = res := Option.some.inj hres'.symm
    subst hresq
    simp only [toLowerBytes]
    set bs := trimGo (res'.take 32) with hbs
    have hbs_ascii : ∀ b ∈ bs, b < 0x80 := fun b hb =>
      hrasc b (List.take_subset 32 _ (trimGo_subset hb))
    rw [toLowerBytesFuel_ascii_len bs.length bs (le_refl _) hbs_ascii]
    calc bs.length
        ≤ (res'.take 32).length := trimGo_length_le _
      _ ≤ 32 := by rw [List.length_take]; exact min_le_left _ _

/-- Witness for `c10_amended`: the all-ASCII input "A b" sanitizes (without
panicking) to the 3 bytes of "a-b", within the 32-byte bound. -/
theorem c10_amended_witness :
    (∀ c ∈ "A b".data, c.toNat < 0x80) ∧
      sanitizeForFile "A b".data = some [0x61, 0x2D, 0x62] ∧
      ([0x61, 0x2D, 0x62] : List Nat).length ≤ 32 :=
  ⟨by decide, by decide,
    (c10_amended "A b".data).2.2.2 (by decide) [0x61, 0x2D, 0x62] (by decide)⟩

end WebBlog
